import Mathlib

/-!
Verification of the metadata.xml access layer (pym/gentoolkit/metadata.py).

The module parses a metadata.xml file once and exposes four lazily cached
accessors: descriptions, maintainers, use flags and upstream blocks.  We embed
the parsed XML tree as a rose tree (`Elem`), translate the extraction
routines (`_Maintainer.__init__`, `_Useflag.__init__`, `_Upstream` and the
four `MetaData` accessors) as pure Lean functions, model the mutable caching
state of a `MetaData` instance as explicit state passing over `MState`, and
prove the specified properties about them.
-/

set_option linter.unusedVariables false

/-- An XML element as exposed by xml.etree.cElementTree: a tag, an attribute
list, the text directly after the opening tag, the child elements in document
order, and the tail text directly after the closing tag. -/
inductive Elem : Type where
  | mk (tag : String) (attrs : List (String × String)) (text : Option String)
       (children : List Elem) (tail : Option String)

def Elem.tag : Elem → String
  | .mk t _ _ _ _ => t

def Elem.attrs : Elem → List (String × String)
  | .mk _ a _ _ _ => a

def Elem.text : Elem → Option String
  | .mk _ _ x _ _ => x

def Elem.children : Elem → List Elem
  | .mk _ _ _ cs _ => cs

def Elem.tail : Elem → Option String
  | .mk _ _ _ _ tl => tl

@[simp] theorem Elem.tag_mk (t a x cs tl) : Elem.tag (.mk t a x cs tl) = t := rfl

@[simp] theorem Elem.attrs_mk (t a x cs tl) : Elem.attrs (.mk t a x cs tl) = a := rfl

@[simp] theorem Elem.text_mk (t a x cs tl) : Elem.text (.mk t a x cs tl) = x := rfl

@[simp] theorem Elem.children_mk (t a x cs tl) : Elem.children (.mk t a x cs tl) = cs := rfl

@[simp] theorem Elem.tail_mk (t a x cs tl) : Elem.tail (.mk t a x cs tl) = tl := rfl

/-- Attribute lookup, Element.get(key): the value of the attribute, or None
when the attribute is absent. -/
def Elem.get (e : Elem) (k : String) : Option String :=
  (e.attrs.find? (fun kv => kv.1 == k)).map (fun kv => kv.2)

/-- Element.findall(tag) with a plain tag path: the direct children carrying
that tag, in document order. -/
def Elem.findall (e : Elem) (t : String) : List Elem :=
  e.children.filter (fun c => c.tag == t)

mutual

/-- Element.iter(): the element itself followed by all of its descendants in
depth-first pre-order (document order). -/
def Elem.iter : Elem → List Elem
  | .mk t a x cs tl => .mk t a x cs tl :: iterList cs

/-- The concatenation of the iter() sequences of a list of sibling elements. -/
def iterList : List Elem → List Elem
  | [] => []
  | c :: cs => Elem.iter c ++ iterList cs

end

theorem Elem.iter_eq (e : Elem) : Elem.iter e = e :: iterList e.children := by
  cases e
  rfl

@[simp] theorem iterList_nil : iterList [] = [] := rfl

@[simp] theorem iterList_cons (c : Elem) (cs : List Elem) :
    iterList (c :: cs) = Elem.iter c ++ iterList cs := rfl

/-- Python string truthiness for an optional string: false for None and for
the empty string. -/
def truthy : Option String → Bool
  | none => false
  | some s => !(s == "")

/-- Checks whether the second list starts with the first. -/
def listStartsWith : List Char → List Char → Bool
  | [], _ => true
  | _ :: _, [] => false
  | a :: as, b :: bs => a == b && listStartsWith as bs

/-- Checks whether the first list occurs as a contiguous sublist of the
second. -/
def listContains (needle : List Char) : List Char → Bool
  | [] => listStartsWith needle []
  | c :: cs => listStartsWith needle (c :: cs) || listContains needle cs

/-- Python substring containment, needle in hay. -/
def strIn (needle hay : String) : Bool :=
  listContains needle.data hay.data

/-- Whether a character is matched by the regular expression class used in
re.sub in _Useflag.__init__ (the ASCII whitespace characters; the source is
only ever applied to ASCII metadata text). -/
def isPySpace (c : Char) : Bool :=
  c == ' ' || c == '\t' || c == '\n' || c == '\r' || c == '\x0b' || c == '\x0c'

/-- State machine for collapsing whitespace runs: the flag records whether the
previous character was whitespace. -/
def collapseAux : Bool → List Char → List Char
  | _, [] => []
  | prev, c :: cs =>
    if isPySpace c then
      if prev then collapseAux true cs else ' ' :: collapseAux true cs
    else c :: collapseAux false cs

/-- Replaces every maximal run of whitespace by a single space, as the
re.sub call at the end of _Useflag.__init__ does. -/
def collapseWS (s : String) : String :=
  String.mk (collapseAux false s.data)

/-- One conditional append from the loop body of _Useflag.__init__: the chunk
is appended when it is truthy and not already a substring of the accumulated
description. -/
def appendChunk (desc : String) (chunk : Option String) : String :=
  if truthy chunk && !(strIn (chunk.getD "") desc) then desc ++ chunk.getD "" else desc

/-- One iteration of the loop in _Useflag.__init__: the child's text is
considered first, then the child's tail, each against the description
accumulated so far. -/
def descStep (desc : String) (child : Elem) : String :=
  appendChunk (appendChunk desc child.text) child.tail

/-- The description computed by _Useflag.__init__: start from the node's own
text when truthy, loop over node.iter() (the node itself followed by all of
its descendants) appending text and tail chunks not already contained in the
accumulated string, then collapse whitespace runs. -/
def Useflag.descOf (node : Elem) : String :=
  let d0 : String := if truthy node.text then node.text.getD "" else ""
  collapseWS ((Elem.iter node).foldl descStep d0)

/-- The _Useflag record: name and restrict attributes plus the accumulated
description. -/
structure Useflag : Type where
  name : Option String
  restrict : Option String
  description : String
deriving DecidableEq

/-- Translation of _Useflag.__init__. -/
def Useflag.ofNode (node : Elem) : Useflag :=
  ⟨node.get "name", node.get "restrict", Useflag.descOf node⟩

/-- A Python object's string-valued attribute store, as a sequence of writes;
a later write to the same attribute name shadows an earlier one. -/
abbrev Obj := List (String × Option String)

/-- Python setattr: record a write of value v to attribute k. -/
def setattr (o : Obj) (k : String) (v : Option String) : Obj :=
  o ++ [(k, v)]

/-- Python getattr: the last value written to attribute k, or none when the
attribute was never set. -/
def Obj.get (o : Obj) (k : String) : Option (Option String) :=
  ((o.filter (fun kv => kv.1 == k)).getLast?).map (fun kv => kv.2)

/-- Translation of _Maintainer.__init__: initialise email, name and
description to None, read the restrict and status attributes, then iterate
over node.iter() (the node itself followed by all of its descendants in
document order) setting one attribute per element, named by the element's tag
and holding the element's text. -/
def Maintainer.ofNode (node : Elem) : Obj :=
  let o : Obj := []
  let o := setattr o "email" none
  let o := setattr o "name" none
  let o := setattr o "description" none
  let o := setattr o "restrict" (node.get "restrict")
  let o := setattr o "status" (node.get "status")
  (Elem.iter node).foldl (fun acc a => setattr acc a.tag a.text) o

/-- The _Upstream record. -/
structure Upstream : Type where
  node : Elem
  maintainers : List Obj
  changelogs : List (Option String)
  docs : List (Option String × Option String)
  bugtrackers : List (Option String)
  remoteids : List (Option String × Option String)

/-- Translation of _Upstream.upstream_bugtrackers. -/
def upstream_bugtrackers (node : Elem) : List (Option String) :=
  (node.findall "bugs-to").map Elem.text

/-- Translation of _Upstream.upstream_changelogs. -/
def upstream_changelogs (node : Elem) : List (Option String) :=
  (node.findall "changelog").map Elem.text

/-- Translation of _Upstream.upstream_documentation. -/
def upstream_documentation (node : Elem) : List (Option String × Option String) :=
  (node.findall "doc").map (fun e => (e.text, e.get "lang"))

/-- Translation of _Upstream.upstream_maintainers. -/
def upstream_maintainers (node : Elem) : List Obj :=
  (node.findall "maintainer").map Maintainer.ofNode

/-- Translation of _Upstream.upstream_remoteids. -/
def upstream_remoteids (node : Elem) : List (Option String × Option String) :=
  (node.findall "remote-id").map (fun e => (e.text, e.get "type"))

/-- Translation of _Upstream.__init__. -/
def Upstream.ofNode (node : Elem) : Upstream :=
  ⟨node, upstream_maintainers node, upstream_changelogs node,
   upstream_documentation node, upstream_bugtrackers node,
   upstream_remoteids node⟩

/-- The mutable state of one MetaData instance: the parsed tree (represented
by its root element) and the four independent cache slots, each None until
the corresponding accessor has run once. -/
structure MState : Type where
  tree : Elem
  descriptionsCache : Option (List (Option String))
  maintainersCache : Option (List Obj)
  useflagsCache : Option (List Useflag)
  upstreamCache : Option (List Upstream)

/-- The state of a MetaData instance directly after __init__ parsed the tree:
all four caches empty. -/
def MState.fresh (root : Elem) : MState :=
  MState.mk root none none none none

/-- The same cache state over a (possibly different) tree; used to express
that a cache hit never consults the tree. -/
def retree (s : MState) (t : Elem) : MState :=
  MState.mk t s.descriptionsCache s.maintainersCache s.useflagsCache s.upstreamCache

/-- Translation of MetaData.descriptions: return the cache when set,
otherwise collect the text of the top-level longdescription elements and
store the list in the cache. -/
def MetaData.descriptions (s : MState) : List (Option String) × MState :=
  match s.descriptionsCache with
  | some v => (v, s)
  | none =>
      let v := (s.tree.findall "longdescription").map Elem.text
      (v, MState.mk s.tree (some v) s.maintainersCache s.useflagsCache s.upstreamCache)

/-- Translation of MetaData.maintainers: one _Maintainer per top-level
maintainer element, cached. -/
def MetaData.maintainers (s : MState) : List Obj × MState :=
  match s.maintainersCache with
  | some v => (v, s)
  | none =>
      let v := (s.tree.findall "maintainer").map Maintainer.ofNode
      (v, MState.mk s.tree s.descriptionsCache (some v) s.useflagsCache s.upstreamCache)

/-- Translation of MetaData.use: one _Useflag per flag element anywhere in
the document (tree.iter with a tag filters the whole-tree pre-order
traversal), cached. -/
def MetaData.use (s : MState) : List Useflag × MState :=
  match s.useflagsCache with
  | some v => (v, s)
  | none =>
      let v := ((Elem.iter s.tree).filter (fun e => e.tag == "flag")).map Useflag.ofNode
      (v, MState.mk s.tree s.descriptionsCache s.maintainersCache (some v) s.upstreamCache)

/-- Translation of MetaData.upstream: one _Upstream per top-level upstream
element, cached. -/
def MetaData.upstream (s : MState) : List Upstream × MState :=
  match s.upstreamCache with
  | some v => (v, s)
  | none =>
      let v := (s.tree.findall "upstream").map Upstream.ofNode
      (v, MState.mk s.tree s.descriptionsCache s.maintainersCache s.useflagsCache (some v))

/-- Modelled from the spec: the result of reading and parsing the file at a
path.  The filesystem and the XML parser (xml.etree.cElementTree) are not
part of this repository; the spec only distinguishes well-formed content,
which parses to a tree, from content that is not well-formed XML. -/
inductive XmlContent : Type where
  | wellFormed (root : Elem)
  | malformed

/-- Modelled from the spec: the two fatal construction-time error kinds. -/
inductive MetaError : Type where
  | readError
  | malformedDocumentError
deriving DecidableEq

/-- Modelled from the spec: etree.parse on a path.  A nonexistent or
unreadable path (no content) fails with the read error kind; content that is
not well-formed XML fails with the malformed-document kind; well-formed
content yields the parsed tree. -/
def etreeParse (fs : String → Option XmlContent) (path : String) : Except MetaError Elem :=
  match fs path with
  | none => Except.error MetaError.readError
  | some XmlContent.malformed => Except.error MetaError.malformedDocumentError
  | some (XmlContent.wellFormed root) => Except.ok root

/-- Translation of MetaData.__init__ over the modelled parse: parse the path
immediately; on success produce the state with all four caches empty, on
failure propagate the error so that no document state exists. -/
def MetaData.init (fs : String → Option XmlContent) (path : String) : Except MetaError MState :=
  match etreeParse fs path with
  | Except.error e => Except.error e
  | Except.ok root => Except.ok (MState.fresh root)

/-- The text-then-tail chunk pair contributed by one element. -/
def elemChunks (e : Elem) : List (Option String) :=
  [e.text, e.tail]

/-- The chunk sequence contributed by a list of elements, one text-tail pair
per element. -/
def specChunks (es : List Elem) : List (Option String) :=
  (es.map elemChunks).flatten

/-- One append step as the spec words it: the chunk is appended exactly when
its string does not already occur in the accumulated description. -/
def dedupAppend (desc : String) (chunk : Option String) : String :=
  match chunk with
  | none => desc
  | some t => if strIn t desc then desc else desc ++ t

/-- Definition following the spec wording of claim C1: start from the flag
element's own text, then append the text and trailing tail-text of every
nested element in document order, skipping chunks whose exact string already
occurs in the accumulated description, and finally collapse whitespace
runs. -/
def specFlagDesc (node : Elem) : String :=
  collapseWS ((specChunks (iterList node.children)).foldl dedupAppend (node.text.getD ""))

/-- The amended builder: identical to specFlagDesc except that the traversal
is node.iter(), which starts with the flag element itself, so the flag's own
trailing tail-text also participates. -/
def specFlagDescSelf (node : Elem) : String :=
  collapseWS ((specChunks (Elem.iter node)).foldl dedupAppend (node.text.getD ""))

mutual

/-- Independent specification of the flag elements of a document in
depth-first pre-order: the root first when it is itself a flag, then the flag
elements of each child subtree in sibling order. -/
def docOrderFlags : Elem → List Elem
  | .mk t a x cs tl =>
      (if t == "flag" then [Elem.mk t a x cs tl] else []) ++ docOrderFlagsList cs

/-- The flags of a list of sibling subtrees in document order. -/
def docOrderFlagsList : List Elem → List Elem
  | [] => []
  | c :: cs => docOrderFlags c ++ docOrderFlagsList cs

end

theorem listContains_nil (l : List Char) : listContains [] l = true := by
  cases l with
  | nil => rfl
  | cons c cs => simp [listContains, listStartsWith]

theorem strIn_empty (h : String) : strIn "" h = true :=
  listContains_nil h.data

theorem appendChunk_eq_dedupAppend (desc : String) (c : Option String) :
    appendChunk desc c = dedupAppend desc c := by
  cases c with
  | none => simp [appendChunk, dedupAppend, truthy]
  | some t =>
      by_cases ht : t = ""
      · subst ht
        simp [appendChunk, dedupAppend, truthy, strIn_empty]
      · simp only [appendChunk, dedupAppend, truthy, Option.getD_some]
        rcases hs : strIn t desc with _ | _
        · simp [ht, hs]
        · simp [ht, hs]

theorem initial_desc (x : Option String) :
    (if truthy x then x.getD "" else "") = x.getD "" := by
  cases x with
  | none => simp [truthy]
  | some s =>
      by_cases hs : s = ""
      · subst hs
        simp [truthy]
      · simp [truthy, hs]

theorem foldl_descStep (es : List Elem) (i : String) :
    es.foldl descStep i = (specChunks es).foldl dedupAppend i := by
  have hstep : descStep = fun (b : String) (e : Elem) =>
      (elemChunks e).foldl dedupAppend b := by
    funext b e
    simp [descStep, elemChunks, appendChunk_eq_dedupAppend]
  rw [specChunks, List.foldl_flatten, List.foldl_map, hstep]

theorem descOf_eq_specSelf (node : Elem) :
    Useflag.descOf node = specFlagDescSelf node := by
  rw [Useflag.descOf, specFlagDescSelf, initial_desc, foldl_descStep]

/-- The write sequence performed by _Maintainer.__init__ before the generic
loop: the three None initialisations and the two attribute reads. -/
def initObj (node : Elem) : Obj :=
  [("email", none), ("name", none), ("description", none),
   ("restrict", node.get "restrict"), ("status", node.get "status")]

/-- The generic write performed for one visited element: attribute named by
the tag, value the element's text. -/
def tagWrite (a : Elem) : String × Option String :=
  (a.tag, a.text)

theorem foldl_setattr (l : List Elem) (o : Obj) :
    l.foldl (fun acc a => setattr acc a.tag a.text) o = o ++ l.map tagWrite := by
  induction l generalizing o with
  | nil => simp
  | cons a l ih =>
      rw [List.foldl_cons, ih, setattr]
      simp [tagWrite]

theorem Maintainer.ofNode_eq (node : Elem) :
    Maintainer.ofNode node = initObj node ++ (Elem.iter node).map tagWrite := by
  rw [Maintainer.ofNode]
  rw [foldl_setattr]
  rfl

theorem Obj.get_append_right (o1 o2 : Obj) (k : String)
    (h : (Obj.get o2 k).isSome) :
    Obj.get (o1 ++ o2) k = Obj.get o2 k := by
  rw [Obj.get, Obj.get, List.filter_append]
  rw [List.getLast?_append_of_ne_nil]
  intro hnil
  rw [Obj.get, hnil] at h
  simp at h

theorem Obj.get_append_left (o1 o2 : Obj) (k : String)
    (h : Obj.get o2 k = none) :
    Obj.get (o1 ++ o2) k = Obj.get o1 k := by
  rw [Obj.get] at h
  rw [Option.map_eq_none'] at h
  rw [List.getLast?_eq_none_iff] at h
  rw [Obj.get, Obj.get, List.filter_append, h, List.append_nil]

theorem Obj.get_map_tagWrite (l : List Elem) (k : String) :
    Obj.get (l.map tagWrite) k
      = ((l.filter (fun a => a.tag == k)).getLast?).map Elem.text := by
  rw [Obj.get, List.filter_map]
  rw [List.getLast?_map]
  rw [Option.map_map]
  rfl

theorem maintainer_last_write (node : Elem) (t : String)
    (h : (iterList node.children).filter (fun x => x.tag == t) ≠ []) :
    Obj.get (Maintainer.ofNode node) t
      = ((iterList node.children).filter (fun x => x.tag == t)).getLast?.map Elem.text := by
  have hfull : (Elem.iter node).filter (fun x => x.tag == t)
      = (if node.tag == t then [node] else [])
        ++ (iterList node.children).filter (fun x => x.tag == t) := by
    rw [Elem.iter_eq, List.filter_cons]
    rcases hnt : (node.tag == t) with _ | _ <;> simp
  have hlast : ((Elem.iter node).filter (fun x => x.tag == t)).getLast?
      = ((iterList node.children).filter (fun x => x.tag == t)).getLast? := by
    rw [hfull, List.getLast?_append_of_ne_nil _ h]
  have hsome : (Obj.get ((Elem.iter node).map tagWrite) t).isSome := by
    rw [Obj.get_map_tagWrite, hlast]
    simpa using h
  rw [Maintainer.ofNode_eq, Obj.get_append_right _ _ _ hsome, Obj.get_map_tagWrite, hlast]

theorem maintainer_self_field (node : Elem)
    (h : ∀ d ∈ iterList node.children, ¬ d.tag = node.tag) :
    Obj.get (Maintainer.ofNode node) node.tag = some node.text := by
  have hd : (iterList node.children).filter (fun x => x.tag == node.tag) = [] := by
    rw [List.filter_eq_nil_iff]
    intro d hdm
    simpa using h d hdm
  have hfull : (Elem.iter node).filter (fun x => x.tag == node.tag) = [node] := by
    rw [Elem.iter_eq, List.filter_cons, hd]
    simp
  have hsome : (Obj.get ((Elem.iter node).map tagWrite) node.tag).isSome := by
    rw [Obj.get_map_tagWrite, hfull]
    simp
  rw [Maintainer.ofNode_eq, Obj.get_append_right _ _ _ hsome, Obj.get_map_tagWrite, hfull]
  simp

theorem maintainer_field_exists (node : Elem) :
    (Obj.get (Maintainer.ofNode node) node.tag).isSome := by
  have hsome : (Obj.get ((Elem.iter node).map tagWrite) node.tag).isSome := by
    rw [Obj.get_map_tagWrite]
    simp
    exact ⟨node, by rw [Elem.iter_eq]; exact List.mem_cons_self node _, rfl⟩
  rw [Maintainer.ofNode_eq, Obj.get_append_right _ _ _ hsome]
  exact hsome

theorem maintainer_attr_fallback (node : Elem) (t : String)
    (h : ∀ d ∈ Elem.iter node, ¬ d.tag = t) :
    Obj.get (Maintainer.ofNode node) t = Obj.get (initObj node) t := by
  have hfull : (Elem.iter node).filter (fun x => x.tag == t) = [] := by
    rw [List.filter_eq_nil_iff]
    intro d hdm
    simpa using h d hdm
  rw [Maintainer.ofNode_eq, Obj.get_append_left]
  rw [Obj.get_map_tagWrite, hfull]
  rfl

theorem initObj_status (node : Elem) :
    Obj.get (initObj node) "status" = some (node.get "status") := rfl

theorem initObj_restrict (node : Elem) :
    Obj.get (initObj node) "restrict" = some (node.get "restrict") := rfl

mutual

theorem iter_filter_flag : (e : Elem) →
    (Elem.iter e).filter (fun x => x.tag == "flag") = docOrderFlags e
  | .mk t a x cs tl => by
      rw [Elem.iter, docOrderFlags, List.filter_cons, iterList_filter_flag cs]
      rcases ht : (Elem.tag (Elem.mk t a x cs tl) == "flag") with _ | _ <;>
        simp_all

theorem iterList_filter_flag : (l : List Elem) →
    (iterList l).filter (fun x => x.tag == "flag") = docOrderFlagsList l
  | [] => by rfl
  | c :: cs => by
      rw [iterList_cons, docOrderFlagsList, List.filter_append,
        iter_filter_flag c, iterList_filter_flag cs]

end

theorem children_sublist_iterList : (l : List Elem) → List.Sublist l (iterList l)
  | [] => List.Sublist.refl []
  | c :: cs => by
      rw [iterList_cons]
      have h1 : List.Sublist [c] (Elem.iter c) := by
        rw [Elem.iter_eq]
        exact List.Sublist.cons₂ c (List.nil_sublist _)
      exact List.Sublist.append h1 (children_sublist_iterList cs)

theorem findall_sublist_iter (root : Elem) (t : String) :
    List.Sublist (root.findall t) (Elem.iter root) := by
  rw [Elem.findall, Elem.iter_eq]
  have h1 : List.Sublist (root.children.filter (fun c => c.tag == t)) root.children :=
    List.filter_sublist root.children
  have h2 : List.Sublist root.children (iterList root.children) :=
    children_sublist_iterList root.children
  exact List.Sublist.cons _ (h1.trans h2)

theorem descriptions_cache_stable (s : MState) (v : List (Option String)) (s1 : MState)
    (t' : Elem) (h : MetaData.descriptions s = (v, s1)) :
    MetaData.descriptions (retree s1 t') = (v, retree s1 t') := by
  cases s with
  | mk tr dc mc uc pc =>
      cases dc with
      | some w =>
          simp only [MetaData.descriptions] at h
          injection h with h1 h2
          subst h1
          subst h2
          simp [retree, MetaData.descriptions]
      | none =>
          simp only [MetaData.descriptions] at h
          injection h with h1 h2
          subst h1
          subst h2
          simp [retree, MetaData.descriptions]

theorem maintainers_cache_stable (s : MState) (v : List Obj) (s1 : MState)
    (t' : Elem) (h : MetaData.maintainers s = (v, s1)) :
    MetaData.maintainers (retree s1 t') = (v, retree s1 t') := by
  cases s with
  | mk tr dc mc uc pc =>
      cases mc with
      | some w =>
          simp only [MetaData.maintainers] at h
          injection h with h1 h2
          subst h1
          subst h2
          simp [retree, MetaData.maintainers]
      | none =>
          simp only [MetaData.maintainers] at h
          injection h with h1 h2
          subst h1
          subst h2
          simp [retree, MetaData.maintainers]

theorem use_cache_stable (s : MState) (v : List Useflag) (s1 : MState)
    (t' : Elem) (h : MetaData.use s = (v, s1)) :
    MetaData.use (retree s1 t') = (v, retree s1 t') := by
  cases s with
  | mk tr dc mc uc pc =>
      cases uc with
      | some w =>
          simp only [MetaData.use] at h
          injection h with h1 h2
          subst h1
          subst h2
          simp [retree, MetaData.use]
      | none =>
          simp only [MetaData.use] at h
          injection h with h1 h2
          subst h1
          subst h2
          simp [retree, MetaData.use]

theorem upstream_cache_stable (s : MState) (v : List Upstream) (s1 : MState)
    (t' : Elem) (h : MetaData.upstream s = (v, s1)) :
    MetaData.upstream (retree s1 t') = (v, retree s1 t') := by
  cases s with
  | mk tr dc mc uc pc =>
      cases pc with
      | some w =>
          simp only [MetaData.upstream] at h
          injection h with h1 h2
          subst h1
          subst h2
          simp [retree, MetaData.upstream]
      | none =>
          simp only [MetaData.upstream] at h
          injection h with h1 h2
          subst h1
          subst h2
          simp [retree, MetaData.upstream]

theorem descriptions_first_call (s : MState) (h : s.descriptionsCache = none) :
    ((MetaData.descriptions s).2).descriptionsCache = some ((MetaData.descriptions s).1) := by
  cases s with
  | mk tr dc mc uc pc =>
      cases dc with
      | some w => simp at h
      | none => simp [MetaData.descriptions]

theorem maintainers_first_call (s : MState) (h : s.maintainersCache = none) :
    ((MetaData.maintainers s).2).maintainersCache = some ((MetaData.maintainers s).1) := by
  cases s with
  | mk tr dc mc uc pc =>
      cases mc with
      | some w => simp at h
      | none => simp [MetaData.maintainers]

theorem use_first_call (s : MState) (h : s.useflagsCache = none) :
    ((MetaData.use s).2).useflagsCache = some ((MetaData.use s).1) := by
  cases s with
  | mk tr dc mc uc pc =>
      cases uc with
      | some w => simp at h
      | none => simp [MetaData.use]

theorem upstream_first_call (s : MState) (h : s.upstreamCache = none) :
    ((MetaData.upstream s).2).upstreamCache = some ((MetaData.upstream s).1) := by
  cases s with
  | mk tr dc mc uc pc =>
      cases pc with
      | some w => simp at h
      | none => simp [MetaData.upstream]

/-- The well-formed but empty document pkgmetadata with no content. -/
def emptyDoc : Elem := Elem.mk "pkgmetadata" [] none [] none

/-- A flag element carrying its own tail text, as every flag inside a use
block in a real file does (the whitespace before the next sibling). -/
def c1flag : Elem := Elem.mk "flag" [("name", "x")] (some "a") [] (some "b")

/-- A document whose use block holds the flag above. -/
def c1doc : Elem :=
  Elem.mk "pkgmetadata" [] none [Elem.mk "use" [] none [c1flag] none] none

/-- The maintainer element of the open-record example: email, name and an
unanticipated nick sub-element. -/
def c2node : Elem :=
  Elem.mk "maintainer" [] none
    [Elem.mk "email" [] (some "a@b.com") [] none,
     Elem.mk "name" [] (some "A") [] none,
     Elem.mk "nick" [] (some "xyz") [] none] none

/-- A document with the open-record maintainer as its only child. -/
def c2doc : Elem := Elem.mk "pkgmetadata" [] none [c2node] none

/-- The flag of the description-concatenation example: text of the flag, a
nested pkg element with text and tail. -/
def c6flag : Elem :=
  Elem.mk "flag" [("name", "foo")] (some "Enables ")
    [Elem.mk "pkg" [] (some "bar") [] (some " support.")] none

/-- A document whose use block holds the example flag. -/
def c6doc : Elem :=
  Elem.mk "pkgmetadata" [] none [Elem.mk "use" [] none [c6flag] none] none

/-- The upstream block of the round-trip example: one maintainer, one
changelog, one doc with a language, one bug tracker and one remote id. -/
def c7up : Elem :=
  Elem.mk "upstream" [] none
    [Elem.mk "maintainer" [] none [Elem.mk "email" [] (some "x@y.z") [] none] none,
     Elem.mk "changelog" [] (some "https://c.example/log") [] none,
     Elem.mk "doc" [("lang", "fr")] (some "https://d.example/doc") [] none,
     Elem.mk "bugs-to" [] (some "https://b.example/bugs") [] none,
     Elem.mk "remote-id" [("type", "github")] (some "org/repo") [] none] none

/-- A document with the upstream block as its only child. -/
def c7doc : Elem := Elem.mk "pkgmetadata" [] none [c7up] none

/-- A package-level maintainer element that carries a status attribute. -/
def c9node : Elem :=
  Elem.mk "maintainer" [("status", "active")] none
    [Elem.mk "email" [] (some "p@q.r") [] none] none

/-- A document with the status-carrying maintainer at top level. -/
def c9doc : Elem := Elem.mk "pkgmetadata" [] none [c9node] none

/-- A maintainer element with a descendant that shares its own tag. -/
def c10node : Elem :=
  Elem.mk "maintainer" [] (some "outer")
    [Elem.mk "maintainer" [] (some "inner") [] none] none

/-- Claim C1 (counterexample): the claim states that the description of a
flag processed by getUseFlags is built from the flag's own text plus the text
and tail chunks of the nested elements only.  For a flag that carries its own
tail text — as every flag inside a use block does — the code also appends the
flag's own tail, because node.iter() starts with the node itself: the code
yields "ab" where the claimed builder yields "a". -/
theorem c1_counterexample :
    ((MetaData.use (MState.fresh c1doc)).1.map Useflag.description)
      ≠ [specFlagDesc c1flag] := by
  decide

/-- Claim C1 (amended): for every flag element processed by getUseFlags, the
description is built by starting from the flag element's own text and then
appending, for every element of the traversal that begins with the flag
element itself (so the flag's own trailing tail-text participates) in
depth-first pre-order, the element's text and then its tail-text, where a
chunk is appended if and only if its exact string has not already occurred in
the accumulated description; finally whitespace runs are collapsed to a
single space. -/
theorem c1_flag_description (root : Elem) :
    ((MetaData.use (MState.fresh root)).1).map Useflag.description
      = ((Elem.iter root).filter (fun x => x.tag == "flag")).map specFlagDescSelf := by
  have hf : (fun e => Useflag.description (Useflag.ofNode e)) = specFlagDescSelf := by
    funext e
    show Useflag.descOf e = specFlagDescSelf e
    exact descOf_eq_specSelf e
  simp only [MetaData.use, MState.fresh]
  rw [List.map_map]
  show ((Elem.iter root).filter (fun x => x.tag == "flag")).map
      (fun e => Useflag.description (Useflag.ofNode e)) = _
  rw [hf]

/-- Claim C6: for the flag element with text "Enables ", a nested pkg element
with text "bar" and tail " support.", the FeatureFlag built by getUseFlags
has name foo and description exactly "Enables bar support.". -/
theorem c6_flag_example :
    ((MetaData.use (MState.fresh c6doc)).1).map (fun f => (f.name, f.description))
      = [(some "foo", "Enables bar support.")] := by
  decide

/-- Claim C8: getUseFlags returns one FeatureFlag for every flag element
anywhere in the document in depth-first pre-order — docOrderFlags is the
independent pre-order enumeration of the flag elements of the tree — and the
element sequences the accessors draw from (top-level children with a given
tag, and the whole-tree flag traversal) preserve relative document order, the
filtered sequences being sublists of the full pre-order traversal. -/
theorem c8_document_order (root : Elem) :
    ((MetaData.use (MState.fresh root)).1) = (docOrderFlags root).map Useflag.ofNode
    ∧ docOrderFlags root = (Elem.iter root).filter (fun x => x.tag == "flag")
    ∧ (∀ t, List.Sublist (root.findall t) (Elem.iter root))
    ∧ List.Sublist (docOrderFlags root) (Elem.iter root) := by
  refine ⟨?_, (iter_filter_flag root).symm, fun t => findall_sublist_iter root t, ?_⟩
  · simp only [MetaData.use, MState.fresh]
    rw [iter_filter_flag root]
  · rw [← iter_filter_flag root]
    exact List.filter_sublist _

/-- Claim C2: getMaintainers builds each record by recording, for every
descendant element in depth-first document order, the tag as field name and
the text as field value with last-write-wins, and the record is open: for the
example maintainer it exposes email, name and the generic field nick. -/
theorem c2_maintainer_record :
    (∀ (node : Elem) (t : String), (∃ d ∈ iterList node.children, d.tag = t) →
        Obj.get (Maintainer.ofNode node) t
          = ((iterList node.children).filter (fun x => x.tag == t)).getLast?.map Elem.text)
    ∧ ((MetaData.maintainers (MState.fresh c2doc)).1.map
        (fun m => (Obj.get m "email", Obj.get m "name", Obj.get m "nick")))
        = [(some (some "a@b.com"), some (some "A"), some (some "xyz"))] := by
  constructor
  · intro node t hex
    apply maintainer_last_write
    obtain ⟨d, hd, ht⟩ := hex
    intro hnil
    have hall := List.filter_eq_nil_iff.mp hnil d hd
    simp [ht] at hall
  · decide

/-- Witness for claim C2 at the example maintainer and the email field. -/
theorem c2_maintainer_record_witness :
    Obj.get (Maintainer.ofNode c2node) "email"
      = ((iterList c2node.children).filter (fun x => x.tag == "email")).getLast?.map Elem.text :=
  c2_maintainer_record.1 c2node "email" (by decide)

/-- Claim C3: each of the four accessors has its own cache slot: a first call
on an empty slot stores the computed value in that slot, and any later call
on the resulting state returns the stored value unchanged without consulting
the tree at all — the second call returns the same value even when the tree
is replaced by an arbitrary other tree between the calls. -/
theorem c3_caching :
    (∀ (s : MState) (v : List (Option String)) (s1 : MState) (t' : Elem),
        MetaData.descriptions s = (v, s1) →
        MetaData.descriptions (retree s1 t') = (v, retree s1 t'))
    ∧ (∀ (s : MState) (v : List Obj) (s1 : MState) (t' : Elem),
        MetaData.maintainers s = (v, s1) →
        MetaData.maintainers (retree s1 t') = (v, retree s1 t'))
    ∧ (∀ (s : MState) (v : List Useflag) (s1 : MState) (t' : Elem),
        MetaData.use s = (v, s1) →
        MetaData.use (retree s1 t') = (v, retree s1 t'))
    ∧ (∀ (s : MState) (v : List Upstream) (s1 : MState) (t' : Elem),
        MetaData.upstream s = (v, s1) →
        MetaData.upstream (retree s1 t') = (v, retree s1 t'))
    ∧ (∀ s : MState, s.descriptionsCache = none →
        ((MetaData.descriptions s).2).descriptionsCache = some ((MetaData.descriptions s).1))
    ∧ (∀ s : MState, s.maintainersCache = none →
        ((MetaData.maintainers s).2).maintainersCache = some ((MetaData.maintainers s).1))
    ∧ (∀ s : MState, s.useflagsCache = none →
        ((MetaData.use s).2).useflagsCache = some ((MetaData.use s).1))
    ∧ (∀ s : MState, s.upstreamCache = none →
        ((MetaData.upstream s).2).upstreamCache = some ((MetaData.upstream s).1)) :=
  ⟨descriptions_cache_stable, maintainers_cache_stable, use_cache_stable,
   upstream_cache_stable, descriptions_first_call, maintainers_first_call,
   use_first_call, upstream_first_call⟩

/-- Witness for claim C3: the second descriptions call on the state produced
by the first call over the empty document returns the cached empty list. -/
theorem c3_caching_witness :
    MetaData.descriptions (retree (MState.mk emptyDoc (some []) none none none) emptyDoc)
      = ([], retree (MState.mk emptyDoc (some []) none none none) emptyDoc) :=
  c3_caching.1 (MState.fresh emptyDoc) []
    (MState.mk emptyDoc (some []) none none none) emptyDoc rfl

/-- Claim C4 (spec-modelled parser and filesystem): construction of a
MetaData from a path with no readable content fails with the read-error kind,
construction from content that is not well-formed XML fails with the
malformed-document kind, and a failed construction never yields a document
state. -/
theorem c4_construction_failure (fs : String → Option XmlContent) (p : String) :
    (fs p = none → MetaData.init fs p = Except.error MetaError.readError)
    ∧ (fs p = some XmlContent.malformed →
        MetaData.init fs p = Except.error MetaError.malformedDocumentError)
    ∧ (∀ e, MetaData.init fs p = Except.error e →
        ∀ s, ¬ MetaData.init fs p = Except.ok s) := by
  refine ⟨?_, ?_, ?_⟩
  · intro h
    simp [MetaData.init, etreeParse, h]
  · intro h
    simp [MetaData.init, etreeParse, h]
  · intro e he s hs
    rw [he] at hs
    exact Except.noConfusion hs

/-- Witness for claim C4: a filesystem with no file at all gives the read
error, one whose content is malformed gives the malformed-document error. -/
theorem c4_construction_failure_witness :
    MetaData.init (fun _ => none) "metadata.xml" = Except.error MetaError.readError
    ∧ MetaData.init (fun _ => some XmlContent.malformed) "metadata.xml"
        = Except.error MetaError.malformedDocumentError :=
  ⟨(c4_construction_failure (fun _ => none) "metadata.xml").1 rfl,
   (c4_construction_failure (fun _ => some XmlContent.malformed) "metadata.xml").2.1 rfl⟩

/-- Claim C5: the accessors are total over well-formed documents: for the
empty document all four return empty sequences, a flag element with no
attributes yields absent name and restrict rather than an error, and an
upstream element with no sub-elements yields five empty collections. -/
theorem c5_sparse_document :
    ((MetaData.descriptions (MState.fresh emptyDoc)).1 = []
    ∧ (MetaData.maintainers (MState.fresh emptyDoc)).1 = []
    ∧ (MetaData.use (MState.fresh emptyDoc)).1 = []
    ∧ (MetaData.upstream (MState.fresh emptyDoc)).1 = [])
    ∧ (∀ e : Elem, e.attrs = [] →
        Useflag.ofNode e = Useflag.mk none none (Useflag.descOf e))
    ∧ (∀ e : Elem, e.children = [] →
        Upstream.ofNode e = Upstream.mk e [] [] [] [] []) := by
  refine ⟨⟨rfl, rfl, rfl, rfl⟩, ?_, ?_⟩
  · intro e h
    simp [Useflag.ofNode, Elem.get, h]
  · intro e h
    simp [Upstream.ofNode, upstream_maintainers, upstream_changelogs,
      upstream_documentation, upstream_bugtrackers, upstream_remoteids,
      Elem.findall, h]

/-- Witness for claim C5 at the empty document, which has no attributes and
no children. -/
theorem c5_sparse_document_witness :
    Useflag.ofNode emptyDoc = Useflag.mk none none (Useflag.descOf emptyDoc)
    ∧ Upstream.ofNode emptyDoc = Upstream.mk emptyDoc [] [] [] [] [] :=
  ⟨c5_sparse_document.2.1 emptyDoc rfl, c5_sparse_document.2.2 emptyDoc rfl⟩

/-- Claim C7: for the document with exactly one upstream block holding one
maintainer with email x@y.z, one changelog URL, one doc with lang fr, one
bugs-to URL and one remote-id of type github with text org/repo, getUpstream
returns exactly one UpstreamInfo whose five collections each hold exactly the
corresponding input. -/
theorem c7_upstream_roundtrip :
    ((MetaData.upstream (MState.fresh c7doc)).1).length = 1
    ∧ ((MetaData.upstream (MState.fresh c7doc)).1).map
        (fun u => u.maintainers.map (fun m => Obj.get m "email"))
        = [[some (some "x@y.z")]]
    ∧ ((MetaData.upstream (MState.fresh c7doc)).1).map Upstream.changelogs
        = [[some "https://c.example/log"]]
    ∧ ((MetaData.upstream (MState.fresh c7doc)).1).map Upstream.docs
        = [[(some "https://d.example/doc", some "fr")]]
    ∧ ((MetaData.upstream (MState.fresh c7doc)).1).map Upstream.bugtrackers
        = [[some "https://b.example/bugs"]]
    ∧ ((MetaData.upstream (MState.fresh c7doc)).1).map Upstream.remoteids
        = [[(some "org/repo", some "github")]] := by
  refine ⟨?_, ?_, ?_, ?_, ?_, ?_⟩ <;> decide

/-- Claim C9 (counterexample): the claim states that the status field is
absent on every record returned by getMaintainers even when the package-level
maintainer element carries a status attribute; in fact _Maintainer.__init__
reads the status attribute unconditionally, so the record of a top-level
maintainer with a status attribute holds that attribute's value. -/
theorem c9_counterexample :
    ¬ (∀ m ∈ (MetaData.maintainers (MState.fresh c9doc)).1,
        Obj.get m "status" = none ∨ Obj.get m "status" = some none) := by
  decide

/-- Claim C9 (amended): the status field of a package-level Maintainer is
read from the element's status attribute exactly as for upstream-context
maintainers — for every maintainer element none of whose visited elements is
tagged status, the status field equals the element's status attribute, absent
only when the attribute is absent. -/
theorem c9_status_attribute (node : Elem)
    (h : ∀ d ∈ Elem.iter node, ¬ d.tag = "status") :
    Obj.get (Maintainer.ofNode node) "status" = some (node.get "status") := by
  rw [maintainer_attr_fallback node "status" h, initObj_status]

/-- Witness for the amended claim C9 at the status-carrying maintainer. -/
theorem c9_status_attribute_witness :
    Obj.get (Maintainer.ofNode c9node) "status" = some (c9node.get "status") :=
  c9_status_attribute c9node (by decide)

/-- Claim C10 (counterexample): the claim states that the record always
contains a field named by the maintainer element's own tag holding that
element's own text; when a descendant shares the element's tag, the
descendant's write overwrites the element's own, so for the nested
maintainer-in-maintainer element the field holds the inner text. -/
theorem c10_counterexample :
    Obj.get (Maintainer.ofNode c10node) (Elem.tag c10node)
      ≠ some (Elem.text c10node) := by
  decide

/-- Claim C10 (amended): the generic field-recording pass of Maintainer
construction iterates over the maintainer element itself before its
descendants and runs after the restrict and status attributes are read;
consequently the record always contains a field named by the element's own
tag, that field holds the element's own text whenever no descendant shares
the tag, and whenever descendants tagged restrict or status exist their text
overwrites the value previously taken from the corresponding attribute, the
last one in document order winning. -/
theorem c10_self_iteration :
    (∀ node : Elem, Elem.iter node = node :: iterList node.children)
    ∧ (∀ node : Elem, (Obj.get (Maintainer.ofNode node) node.tag).isSome)
    ∧ (∀ node : Elem, (∀ d ∈ iterList node.children, ¬ d.tag = node.tag) →
        Obj.get (Maintainer.ofNode node) node.tag = some node.text)
    ∧ (∀ (node : Elem) (t : String), (t = "restrict" ∨ t = "status") →
        (∃ d ∈ iterList node.children, d.tag = t) →
        Obj.get (Maintainer.ofNode node) t
          = ((iterList node.children).filter (fun x => x.tag == t)).getLast?.map Elem.text) := by
  refine ⟨Elem.iter_eq, maintainer_field_exists, maintainer_self_field, ?_⟩
  intro node t _ hex
  apply maintainer_last_write
  obtain ⟨d, hd, ht⟩ := hex
  intro hnil
  have hall := List.filter_eq_nil_iff.mp hnil d hd
  simp [ht] at hall

/-- Witness for the amended claim C10 at the empty document element, whose
own tag names a field holding its own (absent) text. -/
theorem c10_self_iteration_witness :
    Obj.get (Maintainer.ofNode emptyDoc) (Elem.tag emptyDoc)
      = some (Elem.text emptyDoc) :=
  c10_self_iteration.2.2.1 emptyDoc (by decide)

/-- Witness for the amended claim C1 at the concrete example document. -/
theorem c1_flag_description_witness :
    ((MetaData.use (MState.fresh c6doc)).1).map Useflag.description
      = ((Elem.iter c6doc).filter (fun x => x.tag == "flag")).map specFlagDescSelf :=
  c1_flag_description c6doc

/-- Witness for claim C8 at a document with one nested flag. -/
theorem c8_document_order_witness :
    ((MetaData.use (MState.fresh c1doc)).1) = (docOrderFlags c1doc).map Useflag.ofNode :=
  (c8_document_order c1doc).1
